import Mathlib

/-!
Shallow embedding of the racetime-bot session orchestrator and room
protocol handler (source files `racetime_bot/bot.py`,
`racetime_bot/handler.py`, `racetime_bot/__init__.py`), together with
theorems about command routing, error isolation, the orchestrator's
task table, persistent per-room state, credential refresh scheduling
and session termination.

Modelling conventions:
* Python strings are lists of characters (`PyStr`); `str.lower` is
  modelled character-wise by `Char.toLower` (ASCII case mapping, which
  covers every string the embedded code compares against).
* Python dicts are association lists with insertion-order semantics
  (`dictInsert`, `dictDelete`, `alookup`); `d.get(k)` is `alookup`,
  `d.get(k, default)` is `alookup` followed by `Option.getD`.
* `await`-able handler bodies are modelled by their observable result;
  a body that raises is modelled as returning `Except.error`.
* Object identity of the per-room persistent state dicts is modelled by
  allocation tokens (`StateId`), allocated exactly where the source
  executes `self.state[race_name] = dict()`.
-/

namespace RacetimeBot

/-- Python strings, modelled as lists of characters. -/
abbrev PyStr := List Char

/-- Python `str.split(sep)` for a one-character separator, auxiliary
form returning the first word and the remaining words. -/
def pySplitAux (sep : Char) : PyStr → PyStr × List PyStr
  | [] => ([], [])
  | c :: cs =>
    let r := pySplitAux sep cs
    if c = sep then ([], r.1 :: r.2) else (c :: r.1, r.2)

/-- Python `str.split(sep)`: always yields at least one (possibly
empty) word, matching `''.split(' ') == ['']`. -/
def pySplit (sep : Char) (s : PyStr) : List PyStr :=
  (pySplitAux sep s).1 :: (pySplitAux sep s).2

/-- Python `str.lower()`, modelled by the ASCII case map. -/
def pyLower (s : PyStr) : PyStr := s.map Char.toLower

/-- Python `str.replace(a, b)` for one-character arguments. -/
def pyReplace (a b : Char) (s : PyStr) : PyStr :=
  s.map (fun c => if c = a then b else c)

/-- Python `str.startswith(p)`, a list prefix test. -/
def pyStartsWith (p s : PyStr) : Bool := List.isPrefixOf p s

/-- Lookup in an association list, i.e. a Python dict read. -/
def alookup {α : Type} (k : PyStr) : List (PyStr × α) → Option α
  | [] => none
  | kv :: rest => if k = kv.1 then some kv.2 else alookup k rest

/-- Python dict assignment `d[k] = v`: update in place when the key
exists (keeping its position), otherwise append, matching dict
insertion-order semantics. -/
def dictInsert {α : Type} (k : PyStr) (v : α) : List (PyStr × α) → List (PyStr × α)
  | [] => [(k, v)]
  | kv :: rest => if k = kv.1 then (k, v) :: rest else kv :: dictInsert k v rest

/-- Python `del d[k]` under the no-duplicate-keys invariant. -/
def dictDelete {α : Type} (k : PyStr) (l : List (PyStr × α)) : List (PyStr × α) :=
  l.filter (fun kv => kv.1 ≠ k)

/-- The keys of an association list, in order. -/
def keys {α : Type} (l : List (PyStr × α)) : List PyStr := l.map (fun kv => kv.1)

/-! String constants used by the embedded code. -/

/-- The literal `cancelled` (handler.py line 14). -/
def sCancelled : PyStr := "cancelled".toList

/-- The literal `finished` (handler.py line 14). -/
def sFinished : PyStr := "finished".toList

/-- The method-name fragment `ex_` (handler.py line 115). -/
def sEx : PyStr := "ex_".toList

/-- The method name `race_data` that `consume` dispatches to. -/
def sRaceDataM : PyStr := "race_data".toList

/-- The method name `chat_message` that `consume` dispatches to. -/
def sChatMessageM : PyStr := "chat_message".toList

/-- The method name `error` that `consume` dispatches to. -/
def sErrorM : PyStr := "error".toList

/-- The event type `race.data`. -/
def sRaceDataT : PyStr := "race.data".toList

/-- The event type `chat.message`. -/
def sChatMessageT : PyStr := "chat.message".toList

/-- The fallback addressee `friend` (__init__.py line 76). -/
def sFriend : PyStr := "friend".toList

/-- Fixed rejection template, part before the substituted name
(__init__.py lines 49 and 66). -/
def sRejBefore : PyStr := "Sorry ".toList

/-- Fixed moderator-rejection template, part after the substituted name
(__init__.py line 49). -/
def sRejModAfter : PyStr := ", only moderators can do that.".toList

/-- Fixed monitor-rejection template, part after the substituted name
(__init__.py line 66). -/
def sRejMonAfter : PyStr := ", only race monitors can do that.".toList

/-! Data model of inbound payloads. -/

/-- The race `status` object; only its `value` field is read. -/
structure Status where
  value : Option PyStr
  deriving DecidableEq

/-- A race-data snapshot (race detail payload / `RaceHandler.data`);
only the fields read by the embedded code are modelled. -/
structure RaceData where
  name : Option PyStr
  status : Option Status
  deriving DecidableEq

/-- The `{}` snapshot `RaceHandler.__init__` starts from. -/
def emptyRaceData : RaceData := ⟨none, none⟩

/-- The sender object (`user` key of a chat message); `can_moderate` is
read with a `False` default, `name` with a fallback at the use site. -/
structure User where
  name : Option PyStr
  can_moderate : Bool
  deriving DecidableEq

/-- The inner `message` object of a `chat.message` frame. Boolean flags
model `d.get(key)` truthiness, absent keys being falsy. -/
structure ChatMsg where
  message : Option PyStr
  is_bot : Bool
  is_system : Bool
  is_monitor : Bool
  user : Option User
  deriving DecidableEq

/-- The `{}` default for `data.get('message', {})` (handler.py 107). -/
def emptyChatMsg : ChatMsg := ⟨none, false, false, false, none⟩

/-- An inbound WebSocket frame, a JSON object; the fields the default
handler reads are modelled. `ftype` is the `type` key (`type` is a Lean
keyword), absent when the JSON object carries no such key. -/
structure Frame where
  ftype : Option PyStr
  message : Option ChatMsg
  race : Option RaceData
  errors : List PyStr
  deriving DecidableEq

/-- `status.value` of a snapshot, read as
`data.get('status', {}).get('value')` (handler.py 49, bot.py 82). -/
def statusValue (d : RaceData) : Option PyStr :=
  (d.status.getD ⟨none⟩).value

/-- The `stop_at` class attribute (handler.py 14). -/
def stop_at : List PyStr := [sCancelled, sFinished]

/-! The command router (`RaceHandler.chat_message`). -/

/-- Exceptions escaping the embedded receive loop: dereferencing `None`
(`AttributeError`), the `error` event handler re-raising the payload,
and the miscellaneous exceptions an attribute call can raise (wrong
arity, non-callable or non-awaitable attribute, unbounded recursion). -/
inductive PyErr where
  | attributeError
  | raised (errors : List PyStr)
  | typeError
  deriving DecidableEq

/-- The attribute names of a default `RaceHandler` object, space
separated: the instance attributes set in `__init__` (handler.py
34-39), the `stop_at` class attribute, and every method of the class.
`hasattr(self, m)` succeeds exactly for these names plus the author's
additions and the interpreter-supplied dunder attributes (the latter
two are environment parameters below). -/
def raceHandlerAttrsText : String :=
  "conn data logger state command_prefix ws stop_at begin consume end error chat_message race_data send_message set_bot_raceinfo set_raceinfo set_open set_invitational force_start cancel_race invite_user accept_request force_unready remove_entrant add_monitor remove_monitor handle should_stop"

/-- The default `RaceHandler` attribute names as Python strings. -/
def raceHandlerAttrs : List PyStr := pySplit ' ' raceHandlerAttrsText.toList

/-- The author-extension surface consulted by event and command
dispatch: which `ex_<word>` methods the session object has and what
each does when awaited — `Except.error` models the handler raising —
the `command_prefix` attribute, the object's remaining attribute names
beyond `raceHandlerAttrs` (dunders and author additions), and the
outcome of `await getattr(self, m)(data)` for an attribute `m` that is
not one of the three modelled event handlers. Such a call never touches
the `data` snapshot — it raises before its body runs (wrong arity,
non-callable or non-awaitable attribute, or unbounded recursion for
`consume` itself) or performs outbound side effects only (for example
`send_message`) — so only its raise-or-return outcome is modelled. -/
structure CmdEnv where
  cmdMethods : List PyStr
  cmdOutcome : PyStr → List PyStr → ChatMsg → Except PyStr Unit
  cmdPrefixStr : PyStr
  otherAttrs : List PyStr
  otherOutcome : PyStr → Frame → Except PyErr Unit

/-- A record of the router invoking a command handler: the method name,
the argument words, and the original message object passed alongside. -/
structure CmdInvocation where
  method : PyStr
  args : List PyStr
  message : ChatMsg
  deriving DecidableEq

/-- The observable result of `RaceHandler.chat_message`: which handler
was invoked, if any, and the exception it raised that was caught and
logged, if any. -/
structure ChatResult where
  invoked : Option CmdInvocation
  caught : Option PyStr
  deriving DecidableEq

/-- Embedding of `RaceHandler.chat_message` (handler.py 97-126): drop
bot/system messages; lowercase the text and split on spaces; when the
first word starts with the lowercased command prefix, strip the prefix
length to name an `ex_<word>` method; when the session has that method,
invoke it with the remaining words and the original message object,
catching and logging any exception it raises. -/
def chat_message (env : CmdEnv) (data : Frame) : ChatResult :=
  let message := data.message.getD emptyChatMsg
  if message.is_bot || message.is_system then ⟨none, none⟩
  else
    match pySplit ' ' (pyLower (message.message.getD [])) with
    | [] => ⟨none, none⟩
    | w0 :: rest =>
      if pyStartsWith (pyLower env.cmdPrefixStr) w0 then
        let method := sEx ++ w0.drop env.cmdPrefixStr.length
        if method ∈ env.cmdMethods then
          match env.cmdOutcome method rest message with
          | Except.ok _ => ⟨some ⟨method, rest, message⟩, none⟩
          | Except.error e => ⟨some ⟨method, rest, message⟩, some e⟩
        else ⟨none, none⟩
      else ⟨none, none⟩

/-! The event dispatcher (`RaceHandler.consume`) and receive loop. -/

/-- The handler state the embedded methods mutate: the `data` snapshot.
`none` models Python `None` (assigned by a `race.data` frame lacking a
`race` key); the initial value is `some emptyRaceData`, i.e. `{}`. -/
structure HState where
  data : Option RaceData
  deriving DecidableEq

/-- The initial handler state (handler.py 35). -/
def initHState : HState := ⟨some emptyRaceData⟩

/-- The outcome of one `consume` call: the possibly-updated handler
state plus the observable effects of the built-in chat dispatch. -/
structure ConsumeOut where
  state : HState
  invoked : Option CmdInvocation
  caught : Option PyStr
  deriving DecidableEq

/-- Embedding of `RaceHandler.consume` (handler.py 59-79) together with
the event handlers it can dispatch to: `race_data` (handler.py 128-136,
replaces the snapshot with `data.get('race')`), `chat_message` (the
router above) and `error` (handler.py 89-95, raises). The logging line
dereferences `self.data` and the method-name computation dereferences
the `type` value, so both raise `AttributeError` on `None`. A falsy
(absent or empty) type is a logged no-op; otherwise `hasattr` is
probed: the three handler names always hit, any other existing
attribute (a `RaceHandler` member, an `ex_<word>` method, a dunder or
author addition) is awaited with the raw frame — an abstract outcome
that leaves the snapshot untouched, see `CmdEnv.otherOutcome` — and
only a name matching no attribute is the logged no-op of handler.py
78-79. -/
def consume (env : CmdEnv) (s : HState) (data : Frame) : Except PyErr ConsumeOut :=
  match s.data with
  | none => Except.error PyErr.attributeError
  | some _ =>
    match data.ftype with
    | none => Except.error PyErr.attributeError
    | some t =>
      let method := pyReplace '.' '_' t
      if t = [] then Except.ok ⟨s, none, none⟩
      else if method = sRaceDataM then Except.ok ⟨⟨data.race⟩, none, none⟩
      else if method = sChatMessageM then
        let r := chat_message env data
        Except.ok ⟨s, r.invoked, r.caught⟩
      else if method = sErrorM then Except.error (PyErr.raised data.errors)
      else if method ∈ raceHandlerAttrs ∨ method ∈ env.cmdMethods ∨
          method ∈ env.otherAttrs then
        match env.otherOutcome method data with
        | Except.ok _ => Except.ok ⟨s, none, none⟩
        | Except.error e => Except.error e
      else Except.ok ⟨s, none, none⟩

/-- Embedding of `RaceHandler.should_stop` (handler.py 41-49): read the
status value from the snapshot with empty-dict defaults and test
membership in `stop_at`; dereferencing a `None` snapshot raises. -/
def should_stop (s : HState) : Except PyErr Bool :=
  match s.data with
  | none => Except.error PyErr.attributeError
  | some d =>
    Except.ok (match statusValue d with
      | none => false
      | some v => decide (v ∈ stop_at))

/-- How the embedded receive loop ended. -/
inductive ExitKind where
  | streamEnded
  | stopped
  | errored (e : PyErr)
  deriving DecidableEq

/-- The observable trace of a receive-loop run: the frames actually
consumed in order, how many times the `end` hook ran, the caught
command exceptions in order, and how the loop exited. -/
structure RunTrace where
  processed : List Frame
  endRuns : Nat
  caught : List PyStr
  exit : ExitKind
  deriving DecidableEq

/-- Embedding of the receive loop of `RaceHandler.handle` (handler.py
350-358): consume each inbound frame strictly in order; an exception
escaping `consume` or `should_stop` aborts the loop without running the
`end` hook; when `should_stop` holds after a frame, run the `end` hook
once and exit, leaving the remaining frames unprocessed. -/
def handleLoop (env : CmdEnv) (s : HState) : List Frame → RunTrace
  | [] => ⟨[], 0, [], ExitKind.streamEnded⟩
  | f :: rest =>
    match consume env s f with
    | Except.error e => ⟨[f], 0, [], ExitKind.errored e⟩
    | Except.ok out =>
      match should_stop out.state with
      | Except.error e => ⟨[f], 0, out.caught.toList, ExitKind.errored e⟩
      | Except.ok true => ⟨[f], 1, out.caught.toList, ExitKind.stopped⟩
      | Except.ok false =>
        let t := handleLoop env out.state rest
        ⟨f :: t.processed, t.endRuns, out.caught.toList ++ t.caught, t.exit⟩

/-- The handler state after the loop has consumed the given frames
without an escaping exception. -/
def loopState (env : CmdEnv) (s : HState) : List Frame → HState
  | [] => s
  | f :: rest =>
    match consume env s f with
    | Except.error _ => s
    | Except.ok out => loopState env out.state rest

/-! Permission predicates and restricted commands (__init__.py). -/

/-- Embedding of `can_moderate` (__init__.py 16-23): the sender's
`can_moderate` flag, `False` when indeterminate (no user object). -/
def can_moderate (message : ChatMsg) : Bool :=
  (message.user.getD ⟨none, false⟩).can_moderate

/-- Embedding of `can_monitor` (__init__.py 26-33): the message's
`is_monitor` flag, `False` when absent. -/
def can_monitor (message : ChatMsg) : Bool := message.is_monitor

/-- Observable actions of a command body: `sendMessage` is the chat
reply `RaceHandler.send_message` emits, `bodyEffect` an abstract
side effect of a wrapped command body. -/
inductive BotAction where
  | sendMessage (text : PyStr)
  | bodyEffect (tag : Nat)
  deriving DecidableEq

/-- The rejection-reply addressee (__init__.py 76): the sender's
display name, with the generic fallback when absent. -/
def replyTo (message : ChatMsg) : PyStr :=
  ((message.user.getD ⟨none, false⟩).name).getD sFriend

/-- Embedding of `_restrict_cmd` (__init__.py 70-78): run the wrapped
body when the permission predicate holds; otherwise send exactly one
rejection reply, built by substituting the addressee into the fixed
template (given as the text before and after the substitution point),
and do nothing else. -/
def restrict_cmd (fn : List PyStr → ChatMsg → List BotAction)
    (perm_fn : ChatMsg → Bool) (errBefore errAfter : PyStr)
    (args : List PyStr) (message : ChatMsg) : List BotAction :=
  if perm_fn message then fn args message
  else [BotAction.sendMessage (errBefore ++ replyTo message ++ errAfter)]

/-- Embedding of `moderator_cmd` (__init__.py 36-50). -/
def moderator_cmd (fn : List PyStr → ChatMsg → List BotAction) :
    List PyStr → ChatMsg → List BotAction :=
  restrict_cmd fn can_moderate sRejBefore sRejModAfter

/-- Embedding of `monitor_cmd` (__init__.py 53-67). -/
def monitor_cmd (fn : List PyStr → ChatMsg → List BotAction) :
    List PyStr → ChatMsg → List BotAction :=
  restrict_cmd fn can_monitor sRejBefore sRejMonAfter

/-! The orchestrator (`Bot`). -/

/-- Embedding of the sleep computation of `Bot.reauthorize` (bot.py
136-144): subtract the 600-unit safety margin when the token validity
exceeds it, else sleep the full validity. -/
def reauthorize_delay (expires_in : Int) : Int :=
  if expires_in > 600 then expires_in - 600 else expires_in

/-- Embedding of `Bot.should_handle` (bot.py 75-83): handle a race iff
its status value is not in the handler class's `stop_at` list (an
absent value is not in the list). -/
def should_handle (race_data : RaceData) : Bool :=
  match statusValue race_data with
  | none => true
  | some v => decide (v ∉ stop_at)

/-- Identity token of a persistent per-room state dict: allocated
exactly when `Bot.create_handler` executes the assignment of a fresh
empty dict (bot.py 113-114), so a token denotes the dict created empty
at that moment. -/
abbrev StateId := Nat

/-- Orchestrator lifecycle events, recorded in an append-only log so
the lifecycle theorems can speak about what happened when. -/
inductive OrcEvent where
  | created (name : PyStr) (session : Nat) (sid : StateId)
  | stateDeleted (name : PyStr)
  | finished (name : PyStr)
  deriving DecidableEq

/-- The orchestrator's mutable fields touched by the embedded loops:
`handlers` (the task table, room name to session serial), `state` (room
name to persistent-state token), the allocation counters, and the event
log. -/
structure BotState where
  handlers : List (PyStr × Nat)
  state : List (PyStr × StateId)
  nextSid : Nat
  nextSession : Nat
  log : List OrcEvent
  deriving DecidableEq

/-- Embedding of the persistent-state logic of `Bot.create_handler`
(bot.py 112-117): ensure a state entry exists for the room name,
allocating a fresh empty dict when absent, and hand the entry's
identity to the new handler. -/
def create_handler (b : BotState) (race_name : PyStr) : BotState × StateId :=
  match alookup race_name b.state with
  | some sid => (b, sid)
  | none =>
    (⟨b.handlers, dictInsert race_name b.nextSid b.state, b.nextSid + 1,
      b.nextSession, b.log⟩, b.nextSid)

/-- One iteration of the race loop inside `Bot.refresh_races` (bot.py
169-186) for one fetched room name with its detail payload: skip names
already in the task table; create and register a handler task for
eligible rooms (with a completion callback, modelled as the `finish`
event below); for ineligible rooms discard any persistent state and log
the skip. -/
def passStep (b : BotState) (name : PyStr) (rd : RaceData) : BotState :=
  if (alookup name b.handlers).isSome then b
  else if should_handle rd then
    let hs := create_handler b name
    ⟨dictInsert name hs.1.nextSession hs.1.handlers, hs.1.state, hs.1.nextSid,
     hs.1.nextSession + 1,
     hs.1.log ++ [OrcEvent.created name hs.1.nextSession hs.2]⟩
  else if (alookup name b.state).isSome then
    ⟨b.handlers, dictDelete name b.state, b.nextSid, b.nextSession,
     b.log ++ [OrcEvent.stateDeleted name]⟩
  else b

/-- Folding the race loop over a fetched list. -/
def passFold (b : BotState) (l : List (PyStr × RaceData)) : BotState :=
  l.foldl (fun acc kv => passStep acc kv.1 kv.2) b

/-- Building `self.races` (bot.py 165-167): a dict keyed by room name,
rebuilt wholesale from the fetched list. -/
def buildRaces (fetched : List (PyStr × RaceData)) : List (PyStr × RaceData) :=
  fetched.foldl (fun acc kv => dictInsert kv.1 kv.2 acc) []

/-- One pass of the `Bot.refresh_races` loop body (bot.py 159-186):
rebuild the race dict, then iterate over it with `passStep`. -/
def discoveryPass (b : BotState) (fetched : List (PyStr × RaceData)) : BotState :=
  passFold b (buildRaces fetched)

/-- The done callback registered on each session task (bot.py 155-156
and 179): when a session task finishes, delete its entry from the task
table. The event is only meaningful for a live task, so a name without
an entry is a no-op. -/
def taskFinish (b : BotState) (name : PyStr) : BotState :=
  if (alookup name b.handlers).isSome then
    ⟨dictDelete name b.handlers, b.state, b.nextSid, b.nextSession,
     b.log ++ [OrcEvent.finished name]⟩
  else b

/-- The orchestrator-level events: a discovery pass over a fetched room
list, or a session task finishing. -/
inductive BotEvent where
  | discover (fetched : List (PyStr × RaceData))
  | finish (name : PyStr)
  deriving DecidableEq

/-- One orchestrator step. -/
def stepBot (b : BotState) : BotEvent → BotState
  | BotEvent.discover fetched => discoveryPass b fetched
  | BotEvent.finish name => taskFinish b name

/-- The orchestrator's initial state (bot.py 45-47). -/
def initBot : BotState := ⟨[], [], 0, 0, []⟩

/-- Folding orchestrator steps from an arbitrary state. -/
def foldBot (b : BotState) (evs : List BotEvent) : BotState :=
  evs.foldl stepBot b

/-- The orchestrator state reached from start-up by a list of events. -/
def runBot (evs : List BotEvent) : BotState := foldBot initBot evs


/-! Concrete fixtures used by the claim theorems and their witnesses. -/

/-- The spec's example chat text with the command prefix. -/
def sSeedBang : PyStr := "!seed daybreak".toList

/-- The spec's example chat text without the command prefix. -/
def sSeedPlain : PyStr := "seed daybreak".toList

/-- The default command prefix `!`. -/
def sBang : PyStr := "!".toList

/-- The dunder attribute name `__init__`. -/
def sDunderInit : PyStr := "__init__".toList

/-- The dunder attribute name `__class__`. -/
def sDunderClass : PyStr := "__class__".toList

/-- A representative set of interpreter-supplied attribute names for
the fixture environments. -/
def dunderAttrsW : List PyStr := [sDunderInit, sDunderClass]

/-- The method name the source derives for the `seed` command word; the
spec's abstract name for this handler slot is `command_seed`. -/
def sExSeed : PyStr := "ex_seed".toList

/-- The example argument word. -/
def sDaybreak : PyStr := "daybreak".toList

/-- A session surface with a registered seed-command handler that
succeeds, and prefix `!`. -/
def envSeed : CmdEnv :=
  ⟨[sExSeed], fun _ _ _ => Except.ok (), sBang, dunderAttrsW,
   fun _ _ => Except.error PyErr.typeError⟩

/-- A session surface whose seed-command handler raises. -/
def envBoom : CmdEnv :=
  ⟨[sExSeed], fun _ _ _ => Except.error ("boom".toList), sBang, dunderAttrsW,
   fun _ _ => Except.error PyErr.typeError⟩

/-- A session surface with no registered commands. -/
def envNull : CmdEnv :=
  ⟨[], fun _ _ _ => Except.ok (), sBang, dunderAttrsW,
   fun _ _ => Except.error PyErr.typeError⟩

/-- A human-sent message carrying the prefixed example text. -/
def mSeed : ChatMsg := ⟨some sSeedBang, false, false, false, none⟩

/-- A human-sent message carrying the unprefixed example text. -/
def mPlain : ChatMsg := ⟨some sSeedPlain, false, false, false, none⟩

/-- A bot-sent message carrying the prefixed example text. -/
def mBot : ChatMsg := ⟨some sSeedBang, true, false, false, none⟩

/-- A bot-sent message with no user object and no permission flags. -/
def mBotSender : ChatMsg := ⟨some sSeedBang, true, false, false, none⟩

/-- A mixed-case message used to observe the lowercasing. -/
def mCase : ChatMsg := ⟨some ("!Seed DayBreak".toList), false, false, false, none⟩

/-- Chat frame around `mSeed`. -/
def fSeedBangF : Frame := ⟨some sChatMessageT, some mSeed, none, []⟩

/-- Chat frame around `mPlain`. -/
def fPlainF : Frame := ⟨some sChatMessageT, some mPlain, none, []⟩

/-- Chat frame around `mBot`. -/
def fBotF : Frame := ⟨some sChatMessageT, some mBot, none, []⟩

/-- Chat frame around `mCase`. -/
def fCase : Frame := ⟨some sChatMessageT, some mCase, none, []⟩

/-- Chat frame routed to the raising handler of `envBoom`. -/
def fSeedW : Frame := ⟨some sChatMessageT, some mSeed, none, []⟩

/-- A frame with no `type` key. -/
def fNoType : Frame := ⟨none, none, none, []⟩

/-- A frame with an unrecognized string type. -/
def fOddType : Frame := ⟨some ("race.start".toList), none, none, []⟩

/-- A race snapshot in a terminal status. -/
def rdDone : RaceData := ⟨some ("oot/test".toList), some ⟨some sCancelled⟩⟩

/-- A `race.data` frame carrying the terminal snapshot. -/
def fDone : Frame := ⟨some sRaceDataT, none, some rdDone, []⟩

/-- A chat frame that should never be reached after termination. -/
def fChat : Frame :=
  ⟨some sChatMessageT, some ⟨some ("hello".toList), false, false, false, none⟩, none, []⟩

/-- An example room name. -/
def nA : PyStr := "oot/adequate-kirby-1234".toList

/-- A second example room name. -/
def nB : PyStr := "oot/banzai-bongo-5678".toList

/-- A race detail in a non-terminal status. -/
def rdOpen : RaceData := ⟨some nA, some ⟨some ("open".toList)⟩⟩

/-- A race detail in a terminal status. -/
def rdClosed : RaceData := ⟨some nB, some ⟨some sFinished⟩⟩

/-- A one-room discovery event list. -/
def evsA : List BotEvent := [BotEvent.discover [(nA, rdOpen)]]

/-- A two-room fetched list, one active and one finished. -/
def raceListW : List (PyStr × RaceData) := [(nA, rdOpen), (nB, rdClosed)]

/-- An orchestrator state with a live task and a state entry for `nA`. -/
def bW : BotState := ⟨[(nA, 3)], [(nA, 5)], 6, 4, []⟩

/-- An orchestrator state with a state entry for `nA` but no task. -/
def bW2 : BotState := ⟨[], [(nA, 5)], 6, 4, []⟩

/-- The first word of a Python split, as `chat_message` sees it. -/
def firstWord (s : PyStr) : PyStr := (pySplitAux ' ' s).1


/-! Helper lemmas about the Python-string model. -/

/-- ASCII case-mapping sends only the space character to a space. -/
theorem toLower_space_iff (c : Char) : Char.toLower c = ' ' ↔ c = ' ' := by
  constructor
  · intro h
    have h' : (if c.toNat ≥ 65 ∧ c.toNat ≤ 90 then Char.ofNat (c.toNat + 32) else c) = ' ' := h
    by_cases hc : c.toNat ≥ 65 ∧ c.toNat ≤ 90
    · exfalso
      rw [if_pos hc] at h'
      obtain ⟨h1, h2⟩ := hc
      generalize hg : c.toNat = n at h' h1 h2
      interval_cases n <;> exact absurd h' (by decide)
    · rw [if_neg hc] at h'
      exact h'
  · intro h
    rw [h]
    decide

theorem pySplitAux_lower (s : PyStr) :
    pySplitAux ' ' (pyLower s) =
      ((pySplitAux ' ' s).1.map Char.toLower,
       (pySplitAux ' ' s).2.map (List.map Char.toLower)) := by
  induction s with
  | nil => rfl
  | cons c cs ih =>
    simp only [pyLower, List.map_cons] at ih ⊢
    simp only [pySplitAux, ih]
    by_cases hc : c = ' '
    · rw [if_pos hc, if_pos ((toLower_space_iff c).mpr hc)]
      simp
    · rw [if_neg hc, if_neg (fun h => hc ((toLower_space_iff c).mp h))]
      simp

theorem pySplit_lower (s : PyStr) :
    pySplit ' ' (pyLower s) = (pySplit ' ' s).map pyLower := by
  simp only [pySplit, pySplitAux_lower, List.map_cons]
  simp [pyLower]

/-! Helper lemmas about the receive loop. -/

theorem handleLoop_streamEnded (env : CmdEnv) (s : HState) (pre : List Frame)
    (h : (handleLoop env s pre).exit = ExitKind.streamEnded) :
    (handleLoop env s pre).processed = pre ∧ (handleLoop env s pre).endRuns = 0 := by
  induction pre generalizing s with
  | nil => exact ⟨rfl, rfl⟩
  | cons f rest ih =>
    simp only [handleLoop] at h ⊢
    split at h
    next e heq => simp at h
    next out heq =>
      split at h
      next e2 heq2 => simp at h
      next heq2 => simp at h
      next heq2 =>
        simp only at h ⊢
        obtain ⟨h1, h2⟩ := ih out.state h
        simp [h1, h2]

theorem loopState_cons (env : CmdEnv) (s : HState) (f : Frame) (rest : List Frame)
    (out : ConsumeOut) (hc : consume env s f = Except.ok out) :
    loopState env s (f :: rest) = loopState env out.state rest := by
  simp only [loopState, hc]

theorem handleLoop_append (env : CmdEnv) (s : HState) (pre rest : List Frame)
    (h : (handleLoop env s pre).exit = ExitKind.streamEnded) :
    handleLoop env s (pre ++ rest) =
      ⟨pre ++ (handleLoop env (loopState env s pre) rest).processed,
       (handleLoop env (loopState env s pre) rest).endRuns,
       (handleLoop env s pre).caught ++ (handleLoop env (loopState env s pre) rest).caught,
       (handleLoop env (loopState env s pre) rest).exit⟩ := by
  induction pre generalizing s with
  | nil => simp [handleLoop, loopState]
  | cons f pre2 ih =>
    rw [List.cons_append]
    simp only [handleLoop] at h ⊢
    split at h
    next e heq => simp at h
    next out heq =>
      split at h
      next e2 heq2 => simp at h
      next heq2 => simp at h
      next heq2 =>
        simp only at h ⊢
        rw [ih out.state h, loopState_cons env s f pre2 out heq]
        simp [List.append_assoc]

theorem loopState_data_some (env : CmdEnv) (s : HState) (pre : List Frame) (d0 : RaceData)
    (hd : s.data = some d0)
    (h : (handleLoop env s pre).exit = ExitKind.streamEnded) :
    ∃ d, (loopState env s pre).data = some d := by
  induction pre generalizing s d0 with
  | nil => exact ⟨d0, hd⟩
  | cons f rest ih =>
    simp only [handleLoop] at h
    split at h
    next e heq => simp at h
    next out heq =>
      split at h
      next e2 heq2 => simp at h
      next heq2 => simp at h
      next heq2 =>
        simp only at h
        rw [loopState_cons env s f rest out heq]
        cases hdo : out.state.data with
        | none =>
          rw [should_stop, hdo] at heq2
          simp at heq2
        | some d1 => exact ih out.state d1 hdo h

/-! Helper lemmas about the dict model. -/

theorem dictInsert_cons_self {α : Type} (k : PyStr) (v : α) (kv : PyStr × α)
    (rest : List (PyStr × α)) (h : k = kv.1) :
    dictInsert k v (kv :: rest) = (k, v) :: rest := by
  simp only [dictInsert, if_pos h]

theorem dictInsert_cons_ne {α : Type} (k : PyStr) (v : α) (kv : PyStr × α)
    (rest : List (PyStr × α)) (h : ¬ k = kv.1) :
    dictInsert k v (kv :: rest) = kv :: dictInsert k v rest := by
  simp only [dictInsert, if_neg h]

theorem alookup_cons {α : Type} (k : PyStr) (kv : PyStr × α) (rest : List (PyStr × α)) :
    alookup k (kv :: rest) = if k = kv.1 then some kv.2 else alookup k rest := by
  simp only [alookup]

theorem alookup_dictInsert_self {α : Type} (k : PyStr) (v : α) (l : List (PyStr × α)) :
    alookup k (dictInsert k v l) = some v := by
  induction l with
  | nil => simp [dictInsert, alookup]
  | cons kv rest ih =>
    by_cases h : k = kv.1
    · rw [dictInsert_cons_self k v kv rest h, alookup_cons, if_pos rfl]
    · rw [dictInsert_cons_ne k v kv rest h, alookup_cons, if_neg h]
      exact ih

theorem alookup_dictInsert_ne {α : Type} (k k1 : PyStr) (v : α) (l : List (PyStr × α))
    (h : ¬ k = k1) : alookup k (dictInsert k1 v l) = alookup k l := by
  induction l with
  | nil => simp [dictInsert, alookup, h]
  | cons kv rest ih =>
    by_cases h1 : k1 = kv.1
    · rw [dictInsert_cons_self k1 v kv rest h1, alookup_cons, alookup_cons, if_neg h]
      rw [if_neg (fun hc => h (hc.trans h1.symm))]
    · rw [dictInsert_cons_ne k1 v kv rest h1, alookup_cons, alookup_cons]
      by_cases h2 : k = kv.1
      · rw [if_pos h2, if_pos h2]
      · rw [if_neg h2, if_neg h2]
        exact ih

theorem dictDelete_cons {α : Type} (k : PyStr) (kv : PyStr × α) (rest : List (PyStr × α)) :
    dictDelete k (kv :: rest) =
      if kv.1 = k then dictDelete k rest else kv :: dictDelete k rest := by
  by_cases h : kv.1 = k
  · simp [dictDelete, List.filter_cons, h]
  · simp [dictDelete, List.filter_cons, h]

theorem alookup_dictDelete {α : Type} (k k1 : PyStr) (l : List (PyStr × α)) :
    alookup k (dictDelete k1 l) = if k = k1 then none else alookup k l := by
  induction l with
  | nil =>
    by_cases h : k = k1
    · simp [dictDelete, alookup, h]
    · simp [dictDelete, alookup, h]
  | cons kv rest ih =>
    rw [dictDelete_cons]
    by_cases h1 : kv.1 = k1
    · rw [if_pos h1, ih, alookup_cons]
      by_cases h2 : k = k1
      · rw [if_pos h2, if_pos h2]
      · rw [if_neg h2, if_neg h2, if_neg (fun hc => h2 (hc.trans h1))]
    · rw [if_neg h1, alookup_cons, alookup_cons]
      by_cases h2 : k = kv.1
      · rw [if_pos h2, if_neg (fun hc => h1 (h2.symm.trans hc)), if_pos h2]
      · rw [if_neg h2, if_neg h2, ih]

theorem alookup_eq_none_iff {α : Type} (k : PyStr) (l : List (PyStr × α)) :
    alookup k l = none ↔ k ∉ keys l := by
  induction l with
  | nil => simp [alookup, keys]
  | cons kv rest ih =>
    rw [alookup_cons]
    by_cases h : k = kv.1
    · simp only [if_pos h, keys, List.map_cons, List.mem_cons]
      constructor
      · intro hc
        exact (Option.some_ne_none _ hc).elim
      · intro hc
        exact (hc (Or.inl h)).elim
    · simp only [if_neg h, keys, List.map_cons, List.mem_cons]
      simp only [keys] at ih
      rw [ih]
      constructor
      · intro hk hc
        rcases hc with hc | hc
        · exact h hc
        · exact hk hc
      · intro hk hc
        exact hk (Or.inr hc)

theorem mem_keys_dictInsert {α : Type} (x k : PyStr) (v : α) (l : List (PyStr × α))
    (h : x ∈ keys (dictInsert k v l)) : x = k ∨ x ∈ keys l := by
  induction l with
  | nil =>
    simp only [dictInsert, keys, List.map_cons, List.map_nil, List.mem_cons,
      List.not_mem_nil, or_false] at h
    exact Or.inl h
  | cons kv rest ih =>
    by_cases h1 : k = kv.1
    · rw [dictInsert_cons_self k v kv rest h1] at h
      simp only [keys, List.map_cons, List.mem_cons] at h ⊢
      rcases h with h | h
      · exact Or.inl h
      · exact Or.inr (Or.inr h)
    · rw [dictInsert_cons_ne k v kv rest h1] at h
      simp only [keys, List.map_cons, List.mem_cons] at h ⊢
      rcases h with h | h
      · exact Or.inr (Or.inl h)
      · rcases ih h with h2 | h2
        · exact Or.inl h2
        · exact Or.inr (Or.inr h2)

theorem nodup_keys_dictInsert {α : Type} (k : PyStr) (v : α) (l : List (PyStr × α))
    (h : (keys l).Nodup) : (keys (dictInsert k v l)).Nodup := by
  induction l with
  | nil => simp [dictInsert, keys]
  | cons kv rest ih =>
    simp only [keys, List.map_cons, List.nodup_cons] at h
    obtain ⟨hnm, hnd⟩ := h
    by_cases h1 : k = kv.1
    · rw [dictInsert_cons_self k v kv rest h1]
      simp only [keys, List.map_cons, List.nodup_cons]
      exact ⟨fun hc => hnm (h1 ▸ hc), hnd⟩
    · rw [dictInsert_cons_ne k v kv rest h1]
      simp only [keys, List.map_cons, List.nodup_cons]
      refine ⟨fun hc => ?_, ih hnd⟩
      rcases mem_keys_dictInsert kv.1 k v rest hc with h2 | h2
      · exact h1 h2.symm
      · exact hnm h2

theorem nodup_keys_dictDelete {α : Type} (k : PyStr) (l : List (PyStr × α))
    (h : (keys l).Nodup) : (keys (dictDelete k l)).Nodup := by
  have hsub : List.Sublist (dictDelete k l) l := List.filter_sublist l
  have hmap := hsub.map (fun kv : PyStr × α => kv.1)
  simp only [keys] at h ⊢
  exact hmap.nodup h

/-! Helper lemmas about the orchestrator. -/

theorem create_handler_handlers (b : BotState) (name : PyStr) :
    (create_handler b name).1.handlers = b.handlers := by
  cases h : alookup name b.state <;> simp [create_handler, h]

theorem create_handler_log (b : BotState) (name : PyStr) :
    (create_handler b name).1.log = b.log := by
  cases h : alookup name b.state <;> simp [create_handler, h]

theorem create_handler_nextSession (b : BotState) (name : PyStr) :
    (create_handler b name).1.nextSession = b.nextSession := by
  cases h : alookup name b.state <;> simp [create_handler, h]

theorem passStep_alookup_some (b : BotState) (k : PyStr) (rd : RaceData)
    (n : PyStr) (v : Nat) (h : alookup n b.handlers = some v) :
    alookup n (passStep b k rd).handlers = some v := by
  unfold passStep
  by_cases hk : (alookup k b.handlers).isSome
  · rw [if_pos hk]
    exact h
  · rw [if_neg hk]
    by_cases hsh : should_handle rd
    · rw [if_pos hsh]
      simp only [create_handler_handlers]
      have hne : ¬ n = k := by
        intro hc
        rw [hc] at h
        rw [Option.not_isSome_iff_eq_none] at hk
        rw [hk] at h
        exact Option.noConfusion h
      rw [alookup_dictInsert_ne n k _ _ hne]
      exact h
    · rw [if_neg hsh]
      by_cases hst : (alookup k b.state).isSome
      · rw [if_pos hst]
        exact h
      · rw [if_neg hst]
        exact h

theorem passStep_nodup (b : BotState) (k : PyStr) (rd : RaceData)
    (h : (keys b.handlers).Nodup) : (keys (passStep b k rd).handlers).Nodup := by
  unfold passStep
  by_cases hk : (alookup k b.handlers).isSome
  · rw [if_pos hk]
    exact h
  · rw [if_neg hk]
    by_cases hsh : should_handle rd
    · rw [if_pos hsh]
      simp only [create_handler_handlers]
      exact nodup_keys_dictInsert k _ _ h
    · rw [if_neg hsh]
      by_cases hst : (alookup k b.state).isSome
      · rw [if_pos hst]
        exact h
      · rw [if_neg hst]
        exact h

theorem passFold_alookup_some (l : List (PyStr × RaceData)) (b : BotState)
    (n : PyStr) (v : Nat) (h : alookup n b.handlers = some v) :
    alookup n (passFold b l).handlers = some v := by
  induction l generalizing b with
  | nil => exact h
  | cons kv rest ih =>
    exact ih (passStep b kv.1 kv.2) (passStep_alookup_some b kv.1 kv.2 n v h)

theorem passFold_nodup (l : List (PyStr × RaceData)) (b : BotState)
    (h : (keys b.handlers).Nodup) : (keys (passFold b l).handlers).Nodup := by
  induction l generalizing b with
  | nil => exact h
  | cons kv rest ih =>
    exact ih (passStep b kv.1 kv.2) (passStep_nodup b kv.1 kv.2 h)

theorem taskFinish_alookup (b : BotState) (n2 n : PyStr) (v : Nat) :
    alookup n (taskFinish b n2).handlers = some v ↔
      (¬ n = n2 ∧ alookup n b.handlers = some v) := by
  unfold taskFinish
  by_cases hk : (alookup n2 b.handlers).isSome
  · rw [if_pos hk]
    simp only [alookup_dictDelete]
    by_cases h2 : n = n2
    · rw [if_pos h2]
      simp [h2]
    · rw [if_neg h2]
      simp [h2]
  · rw [if_neg hk]
    by_cases h2 : n = n2
    · subst h2
      rw [Option.not_isSome_iff_eq_none] at hk
      simp [hk]
    · simp [h2]

theorem taskFinish_nodup (b : BotState) (n : PyStr)
    (h : (keys b.handlers).Nodup) : (keys (taskFinish b n).handlers).Nodup := by
  unfold taskFinish
  by_cases hk : (alookup n b.handlers).isSome
  · rw [if_pos hk]
    exact nodup_keys_dictDelete n _ h
  · rw [if_neg hk]
    exact h

theorem foldBot_pres (P : BotState → Prop)
    (hstep : ∀ b ev, P b → P (stepBot b ev)) :
    ∀ (evs : List BotEvent) (b : BotState), P b → P (foldBot b evs) := by
  intro evs
  induction evs with
  | nil => exact fun b h => h
  | cons ev rest ih =>
    intro b h
    exact ih (stepBot b ev) (hstep b ev h)

theorem runBot_handlers_nodup (evs : List BotEvent) :
    (keys (runBot evs).handlers).Nodup := by
  have h := foldBot_pres (fun b => (keys b.handlers).Nodup) ?_ evs initBot ?_
  · exact h
  · intro b ev hp
    cases ev with
    | discover fetched => exact passFold_nodup (buildRaces fetched) b hp
    | finish name => exact taskFinish_nodup b name hp
  · simp [initBot, keys]

theorem passStep_alookup_ne (b : BotState) (k : PyStr) (rd : RaceData)
    (n : PyStr) (hne : ¬ n = k) :
    alookup n (passStep b k rd).handlers = alookup n b.handlers := by
  unfold passStep
  by_cases hk : (alookup k b.handlers).isSome
  · rw [if_pos hk]
  · rw [if_neg hk]
    by_cases hsh : should_handle rd
    · rw [if_pos hsh]
      simp only [create_handler_handlers]
      exact alookup_dictInsert_ne n k _ _ hne
    · rw [if_neg hsh]
      by_cases hst : (alookup k b.state).isSome
      · rw [if_pos hst]
      · rw [if_neg hst]

theorem passStep_log_mono (b : BotState) (k : PyStr) (rd : RaceData)
    (ev : OrcEvent) (h : ev ∈ b.log) : ev ∈ (passStep b k rd).log := by
  unfold passStep
  by_cases hk : (alookup k b.handlers).isSome
  · rw [if_pos hk]
    exact h
  · rw [if_neg hk]
    by_cases hsh : should_handle rd
    · rw [if_pos hsh]
      simp only [create_handler_log]
      exact List.mem_append_left _ h
    · rw [if_neg hsh]
      by_cases hst : (alookup k b.state).isSome
      · rw [if_pos hst]
        exact List.mem_append_left _ h
      · rw [if_neg hst]
        exact h

theorem passFold_log_mono (l : List (PyStr × RaceData)) (b : BotState)
    (ev : OrcEvent) (h : ev ∈ b.log) : ev ∈ (passFold b l).log := by
  induction l generalizing b with
  | nil => exact h
  | cons kv rest ih =>
    exact ih (passStep b kv.1 kv.2) (passStep_log_mono b kv.1 kv.2 ev h)

theorem passStep_created_inv (b : BotState) (k : PyStr) (rd : RaceData)
    (n : PyStr) (ss sid : Nat) (hne : ¬ n = k)
    (h : OrcEvent.created n ss sid ∈ (passStep b k rd).log) :
    OrcEvent.created n ss sid ∈ b.log := by
  unfold passStep at h
  by_cases hk : (alookup k b.handlers).isSome
  · rw [if_pos hk] at h
    exact h
  · rw [if_neg hk] at h
    by_cases hsh : should_handle rd
    · rw [if_pos hsh] at h
      simp only [create_handler_log] at h
      rcases List.mem_append.mp h with h2 | h2
      · exact h2
      · rw [List.mem_singleton] at h2
        cases h2
        exact absurd rfl hne
    · rw [if_neg hsh] at h
      by_cases hst : (alookup k b.state).isSome
      · rw [if_pos hst] at h
        rcases List.mem_append.mp h with h2 | h2
        · exact h2
        · rw [List.mem_singleton] at h2
          cases h2
      · rw [if_neg hst] at h
        exact h

theorem passFold_not_fetched (l : List (PyStr × RaceData)) (b : BotState)
    (name : PyStr) (hnm : name ∉ keys l) :
    alookup name (passFold b l).handlers = alookup name b.handlers ∧
    (∀ ss sid, OrcEvent.created name ss sid ∈ (passFold b l).log →
      OrcEvent.created name ss sid ∈ b.log) := by
  induction l generalizing b with
  | nil => exact ⟨rfl, fun _ _ h => h⟩
  | cons kv rest ih =>
    simp only [keys, List.map_cons, List.mem_cons] at hnm
    push_neg at hnm
    obtain ⟨hne, hnm2⟩ := hnm
    have hnm3 : name ∉ keys rest := by
      simp only [keys]
      exact hnm2
    obtain ⟨ih1, ih2⟩ := ih (passStep b kv.1 kv.2) hnm3
    have hb1 : passFold b (kv :: rest) = passFold (passStep b kv.1 kv.2) rest := rfl
    rw [hb1]
    constructor
    · rw [ih1]
      exact passStep_alookup_ne b kv.1 kv.2 name hne
    · intro ss sid h
      exact passStep_created_inv b kv.1 kv.2 name ss sid hne (ih2 ss sid h)

theorem foldl_dictInsert_nodup (fetched : List (PyStr × RaceData)) :
    ∀ acc, (keys acc).Nodup →
      (keys (fetched.foldl (fun a kv => dictInsert kv.1 kv.2 a) acc)).Nodup := by
  induction fetched with
  | nil => exact fun acc h => h
  | cons kv rest ih =>
    intro acc h
    exact ih (dictInsert kv.1 kv.2 acc) (nodup_keys_dictInsert kv.1 kv.2 acc h)

theorem buildRaces_nodup (fetched : List (PyStr × RaceData)) :
    (keys (buildRaces fetched)).Nodup := by
  exact foldl_dictInsert_nodup fetched [] (by simp [keys])

theorem passFold_eligibility (l : List (PyStr × RaceData)) (b : BotState)
    (name : PyStr) (rd : RaceData)
    (hl : (keys l).Nodup) (hum : alookup name b.handlers = none)
    (hf : alookup name l = some rd) :
    (should_handle rd = false →
      alookup name (passFold b l).handlers = none ∧
      ∀ ss sid, OrcEvent.created name ss sid ∈ (passFold b l).log →
        OrcEvent.created name ss sid ∈ b.log) ∧
    (should_handle rd = true →
      ∃ ss sid, alookup name (passFold b l).handlers = some ss ∧
        OrcEvent.created name ss sid ∈ (passFold b l).log) := by
  induction l generalizing b with
  | nil => simp [alookup] at hf
  | cons kv rest ih =>
    simp only [keys, List.map_cons, List.nodup_cons] at hl
    obtain ⟨hk1, hl2⟩ := hl
    by_cases hnk : name = kv.1
    · rw [alookup_cons, if_pos hnk] at hf
      have hrd : kv.2 = rd := Option.some.inj hf
      have hb1 : passFold b (kv :: rest) = passFold (passStep b kv.1 kv.2) rest := rfl
      have hnm3 : name ∉ keys rest := by
        rw [hnk]
        simp only [keys]
        exact hk1
      obtain ⟨hp1, hp2⟩ := passFold_not_fetched rest (passStep b kv.1 kv.2) name hnm3
      have humS : ¬ (alookup kv.1 b.handlers).isSome = true := by
        rw [← hnk, hum]
        simp
      constructor
      · intro hsh
        have hstep : (passStep b kv.1 kv.2).handlers = b.handlers ∧
            (∀ ss sid, OrcEvent.created name ss sid ∈ (passStep b kv.1 kv.2).log →
              OrcEvent.created name ss sid ∈ b.log) := by
          unfold passStep
          rw [if_neg humS, if_neg (by rw [hrd, hsh]; exact Bool.false_ne_true)]
          by_cases hst : (alookup kv.1 b.state).isSome
          · rw [if_pos hst]
            refine ⟨rfl, fun ss sid h => ?_⟩
            rcases List.mem_append.mp h with h2 | h2
            · exact h2
            · rw [List.mem_singleton] at h2
              cases h2
          · rw [if_neg hst]
            exact ⟨rfl, fun ss sid h => h⟩
        rw [hb1]
        constructor
        · rw [hp1, hstep.1]
          exact hum
        · intro ss sid h
          exact hstep.2 ss sid (hp2 ss sid h)
      · intro hsh
        have hstep : alookup name (passStep b kv.1 kv.2).handlers = some b.nextSession ∧
            OrcEvent.created name b.nextSession (create_handler b kv.1).2 ∈
              (passStep b kv.1 kv.2).log := by
          unfold passStep
          rw [if_neg humS, if_pos (by rw [hrd]; exact hsh)]
          constructor
          · simp only [create_handler_handlers, create_handler_nextSession]
            rw [hnk]
            exact alookup_dictInsert_self kv.1 _ _
          · simp only [create_handler_log, create_handler_nextSession]
            rw [hnk]
            exact List.mem_append_right _ (List.mem_singleton.mpr rfl)
        refine ⟨b.nextSession, (create_handler b kv.1).2, ?_, ?_⟩
        · rw [hb1, hp1]
          exact hstep.1
        · rw [hb1]
          exact passFold_log_mono rest (passStep b kv.1 kv.2) _ hstep.2
    · rw [alookup_cons, if_neg hnk] at hf
      have hum1 : alookup name (passStep b kv.1 kv.2).handlers = none := by
        rw [passStep_alookup_ne b kv.1 kv.2 name hnk]
        exact hum
      obtain ⟨ihA, ihB⟩ := ih (passStep b kv.1 kv.2) hl2 hum1 hf
      constructor
      · intro hsh
        obtain ⟨hA, hB⟩ := ihA hsh
        refine ⟨hA, fun ss sid h => ?_⟩
        exact passStep_created_inv b kv.1 kv.2 name ss sid hnk (hB ss sid h)
      · intro hsh
        exact ihB hsh

theorem taskFinish_state (b : BotState) (n : PyStr) :
    (taskFinish b n).state = b.state := by
  unfold taskFinish
  by_cases hk : (alookup n b.handlers).isSome
  · rw [if_pos hk]
  · rw [if_neg hk]

theorem taskFinish_created_inv (b : BotState) (n name : PyStr) (ss sid : Nat)
    (h : OrcEvent.created name ss sid ∈ (taskFinish b n).log) :
    OrcEvent.created name ss sid ∈ b.log := by
  unfold taskFinish at h
  by_cases hk : (alookup n b.handlers).isSome
  · rw [if_pos hk] at h
    rcases List.mem_append.mp h with h2 | h2
    · exact h2
    · rw [List.mem_singleton] at h2
      cases h2
  · rw [if_neg hk] at h
    exact h

theorem taskFinish_count (b : BotState) (n : PyStr) (x : OrcEvent) :
    (b.log).count x ≤ ((taskFinish b n).log).count x := by
  unfold taskFinish
  by_cases hk : (alookup n b.handlers).isSome
  · rw [if_pos hk]
    simp [List.count_append]
  · rw [if_neg hk]

theorem passStep_count (b : BotState) (k : PyStr) (rd : RaceData) (x : OrcEvent) :
    (b.log).count x ≤ ((passStep b k rd).log).count x := by
  unfold passStep
  by_cases hk : (alookup k b.handlers).isSome
  · rw [if_pos hk]
  · rw [if_neg hk]
    by_cases hsh : should_handle rd
    · rw [if_pos hsh]
      simp only [create_handler_log]
      simp [List.count_append]
    · rw [if_neg hsh]
      by_cases hst : (alookup k b.state).isSome
      · rw [if_pos hst]
        simp [List.count_append]
      · rw [if_neg hst]

theorem passFold_count (l : List (PyStr × RaceData)) (b : BotState) (x : OrcEvent) :
    (b.log).count x ≤ ((passFold b l).log).count x := by
  induction l generalizing b with
  | nil => exact Nat.le_refl _
  | cons kv rest ih =>
    exact Nat.le_trans (passStep_count b kv.1 kv.2 x) (ih (passStep b kv.1 kv.2))

theorem stepBot_count (b : BotState) (ev : BotEvent) (x : OrcEvent) :
    (b.log).count x ≤ ((stepBot b ev).log).count x := by
  cases ev with
  | discover fetched => exact passFold_count (buildRaces fetched) b x
  | finish name => exact taskFinish_count b name x

theorem foldBot_count (evs : List BotEvent) (b : BotState) (x : OrcEvent) :
    (b.log).count x ≤ ((foldBot b evs).log).count x := by
  induction evs generalizing b with
  | nil => exact Nat.le_refl _
  | cons ev rest ih =>
    exact Nat.le_trans (stepBot_count b ev x) (ih (stepBot b ev))

theorem passStep_state_pres (b : BotState) (k : PyStr) (rd : RaceData)
    (name : PyStr) (sid : StateId)
    (hs : alookup name b.state = some sid)
    (hcnt : ((passStep b k rd).log).count (OrcEvent.stateDeleted name) =
      (b.log).count (OrcEvent.stateDeleted name)) :
    alookup name (passStep b k rd).state = some sid ∧
    (∀ ss sid2, OrcEvent.created name ss sid2 ∈ (passStep b k rd).log →
      OrcEvent.created name ss sid2 ∈ b.log ∨ sid2 = sid) := by
  unfold passStep at hcnt ⊢
  by_cases hk : (alookup k b.handlers).isSome
  · rw [if_pos hk] at hcnt ⊢
    exact ⟨hs, fun ss sid2 h => Or.inl h⟩
  · rw [if_neg hk] at hcnt ⊢
    by_cases hsh : should_handle rd
    · rw [if_pos hsh] at hcnt ⊢
      cases hcs : alookup k b.state with
      | some sid0 =>
        have hch : create_handler b k = (b, sid0) := by
          simp [create_handler, hcs]
        rw [hch]
        refine ⟨hs, fun ss sid2 h => ?_⟩
        rcases List.mem_append.mp h with h2 | h2
        · exact Or.inl h2
        · rw [List.mem_singleton] at h2
          cases h2
          rw [hcs] at hs
          exact Or.inr (Option.some.inj hs)
      | none =>
        have hch : create_handler b k =
            (⟨b.handlers, dictInsert k b.nextSid b.state, b.nextSid + 1,
              b.nextSession, b.log⟩, b.nextSid) := by
          simp [create_handler, hcs]
        rw [hch]
        have hne : ¬ name = k := by
          intro hc
          rw [hc, hcs] at hs
          exact Option.noConfusion hs
        refine ⟨?_, fun ss sid2 h => ?_⟩
        · rw [alookup_dictInsert_ne name k _ _ hne]
          exact hs
        · rcases List.mem_append.mp h with h2 | h2
          · exact Or.inl h2
          · rw [List.mem_singleton] at h2
            cases h2
            exact absurd rfl hne
    · rw [if_neg hsh] at hcnt ⊢
      by_cases hst : (alookup k b.state).isSome
      · rw [if_pos hst] at hcnt ⊢
        have hne : ¬ name = k := by
          intro hc
          subst hc
          rw [List.count_append] at hcnt
          have hone : ([OrcEvent.stateDeleted name]).count (OrcEvent.stateDeleted name) = 1 := by
            simp
          rw [hone] at hcnt
          omega
        refine ⟨?_, fun ss sid2 h => ?_⟩
        · rw [alookup_dictDelete, if_neg hne]
          exact hs
        · rcases List.mem_append.mp h with h2 | h2
          · exact Or.inl h2
          · rw [List.mem_singleton] at h2
            cases h2
      · rw [if_neg hst] at hcnt ⊢
        exact ⟨hs, fun ss sid2 h => Or.inl h⟩

theorem passFold_state_pres (l : List (PyStr × RaceData)) (b : BotState)
    (name : PyStr) (sid : StateId)
    (hs : alookup name b.state = some sid)
    (hcnt : ((passFold b l).log).count (OrcEvent.stateDeleted name) =
      (b.log).count (OrcEvent.stateDeleted name)) :
    alookup name (passFold b l).state = some sid ∧
    (∀ ss sid2, OrcEvent.created name ss sid2 ∈ (passFold b l).log →
      OrcEvent.created name ss sid2 ∈ b.log ∨ sid2 = sid) := by
  induction l generalizing b with
  | nil => exact ⟨hs, fun ss sid2 h => Or.inl h⟩
  | cons kv rest ih =>
    have hb1 : passFold b (kv :: rest) = passFold (passStep b kv.1 kv.2) rest := rfl
    rw [hb1] at hcnt ⊢
    have hle1 := passStep_count b kv.1 kv.2 (OrcEvent.stateDeleted name)
    have hle2 := passFold_count rest (passStep b kv.1 kv.2) (OrcEvent.stateDeleted name)
    have hcnt1 : ((passStep b kv.1 kv.2).log).count (OrcEvent.stateDeleted name) =
        (b.log).count (OrcEvent.stateDeleted name) := by omega
    obtain ⟨hs1, hev1⟩ := passStep_state_pres b kv.1 kv.2 name sid hs hcnt1
    have hcnt2 : ((passFold (passStep b kv.1 kv.2) rest).log).count
        (OrcEvent.stateDeleted name) =
        ((passStep b kv.1 kv.2).log).count (OrcEvent.stateDeleted name) := by omega
    obtain ⟨hs2, hev2⟩ := ih (passStep b kv.1 kv.2) hs1 hcnt2
    refine ⟨hs2, fun ss sid2 h => ?_⟩
    rcases hev2 ss sid2 h with h2 | h2
    · exact hev1 ss sid2 h2
    · exact Or.inr h2

theorem stepBot_state_pres (b : BotState) (ev : BotEvent)
    (name : PyStr) (sid : StateId)
    (hs : alookup name b.state = some sid)
    (hcnt : ((stepBot b ev).log).count (OrcEvent.stateDeleted name) =
      (b.log).count (OrcEvent.stateDeleted name)) :
    alookup name (stepBot b ev).state = some sid ∧
    (∀ ss sid2, OrcEvent.created name ss sid2 ∈ (stepBot b ev).log →
      OrcEvent.created name ss sid2 ∈ b.log ∨ sid2 = sid) := by
  cases ev with
  | discover fetched => exact passFold_state_pres (buildRaces fetched) b name sid hs hcnt
  | finish n =>
    refine ⟨?_, fun ss sid2 h => Or.inl (taskFinish_created_inv b n name ss sid2 h)⟩
    show alookup name (taskFinish b n).state = some sid
    rw [taskFinish_state]
    exact hs

theorem foldBot_state_pres (evs : List BotEvent) (b : BotState)
    (name : PyStr) (sid : StateId)
    (hs : alookup name b.state = some sid)
    (hcnt : ((foldBot b evs).log).count (OrcEvent.stateDeleted name) =
      (b.log).count (OrcEvent.stateDeleted name)) :
    alookup name (foldBot b evs).state = some sid ∧
    (∀ ss sid2, OrcEvent.created name ss sid2 ∈ (foldBot b evs).log →
      OrcEvent.created name ss sid2 ∈ b.log ∨ sid2 = sid) := by
  induction evs generalizing b with
  | nil => exact ⟨hs, fun ss sid2 h => Or.inl h⟩
  | cons ev rest ih =>
    have hb1 : foldBot b (ev :: rest) = foldBot (stepBot b ev) rest := rfl
    rw [hb1] at hcnt ⊢
    have hle1 := stepBot_count b ev (OrcEvent.stateDeleted name)
    have hle2 := foldBot_count rest (stepBot b ev) (OrcEvent.stateDeleted name)
    have hcnt1 : ((stepBot b ev).log).count (OrcEvent.stateDeleted name) =
        (b.log).count (OrcEvent.stateDeleted name) := by omega
    obtain ⟨hs1, hev1⟩ := stepBot_state_pres b ev name sid hs hcnt1
    have hcnt2 : ((foldBot (stepBot b ev) rest).log).count (OrcEvent.stateDeleted name) =
        ((stepBot b ev).log).count (OrcEvent.stateDeleted name) := by omega
    obtain ⟨hs2, hev2⟩ := ih (stepBot b ev) hs1 hcnt2
    refine ⟨hs2, fun ss sid2 h => ?_⟩
    rcases hev2 ss sid2 h with h2 | h2
    · exact hev1 ss sid2 h2
    · exact Or.inr h2

theorem passStep_first_creation (b : BotState) (name : PyStr) (rd : RaceData)
    (hum : alookup name b.handlers = none) (hel : should_handle rd = true)
    (hst : alookup name b.state = none) :
    alookup name (passStep b name rd).state = some b.nextSid ∧
    OrcEvent.created name b.nextSession b.nextSid ∈ (passStep b name rd).log := by
  have humS : ¬ (alookup name b.handlers).isSome = true := by
    rw [hum]
    simp
  have hch : create_handler b name =
      (⟨b.handlers, dictInsert name b.nextSid b.state, b.nextSid + 1,
        b.nextSession, b.log⟩, b.nextSid) := by
    simp [create_handler, hst]
  unfold passStep
  rw [if_neg humS, if_pos hel, hch]
  constructor
  · exact alookup_dictInsert_self name b.nextSid b.state
  · exact List.mem_append_right _ (List.mem_singleton.mpr rfl)

theorem passStep_state_delete_inv (b : BotState) (k : PyStr) (rd : RaceData)
    (name : PyStr) (sid : StateId)
    (hs : alookup name b.state = some sid)
    (hnone : alookup name (passStep b k rd).state = none) :
    name = k ∧ alookup name b.handlers = none ∧ should_handle rd = false := by
  unfold passStep at hnone
  by_cases hk : (alookup k b.handlers).isSome
  · rw [if_pos hk] at hnone
    rw [hs] at hnone
    exact Option.noConfusion hnone
  · rw [if_neg hk] at hnone
    by_cases hsh : should_handle rd
    · rw [if_pos hsh] at hnone
      cases hcs : alookup k b.state with
      | some sid0 =>
        have hch : create_handler b k = (b, sid0) := by
          simp [create_handler, hcs]
        rw [hch] at hnone
        rw [hs] at hnone
        exact Option.noConfusion hnone
      | none =>
        have hch : create_handler b k =
            (⟨b.handlers, dictInsert k b.nextSid b.state, b.nextSid + 1,
              b.nextSession, b.log⟩, b.nextSid) := by
          simp [create_handler, hcs]
        rw [hch] at hnone
        by_cases hne : name = k
        · rw [hne, hcs] at hs
          exact Option.noConfusion hs
        · rw [alookup_dictInsert_ne name k _ _ hne, hs] at hnone
          exact Option.noConfusion hnone
    · rw [if_neg hsh] at hnone
      by_cases hst : (alookup k b.state).isSome
      · rw [if_pos hst] at hnone
        rw [alookup_dictDelete] at hnone
        by_cases hne : name = k
        · refine ⟨hne, ?_, ?_⟩
          · rw [hne]
            rw [Option.not_isSome_iff_eq_none] at hk
            exact hk
          · cases hb : should_handle rd
            · rfl
            · exact absurd hb hsh
        · rw [if_neg hne, hs] at hnone
          exact Option.noConfusion hnone
      · rw [if_neg hst] at hnone
        rw [hs] at hnone
        exact Option.noConfusion hnone


/-! The claim theorems and their witnesses. -/

/-- C1: with command prefix `!` and a handler registered for the seed
command word (slot `ex_seed` in the source, `command_seed` in the
spec's naming), the chat text `!seed daybreak` from a non-bot,
non-system sender invokes that handler with the argument list
`[daybreak]` and the original message object; the unprefixed text
`seed daybreak` invokes nothing; and any text from a sender flagged
`is_bot` invokes nothing. -/
theorem C1_command_routing (env : CmdEnv) (f : Frame) (m : ChatMsg)
    (hpre : env.cmdPrefixStr = sBang) (hreg : sExSeed ∈ env.cmdMethods)
    (hm : f.message = some m) :
    (m.is_bot = false → m.is_system = false → m.message = some sSeedBang →
      (chat_message env f).invoked = some ⟨sExSeed, [sDaybreak], m⟩) ∧
    (m.is_bot = false → m.is_system = false → m.message = some sSeedPlain →
      (chat_message env f).invoked = none) ∧
    (m.is_bot = true → (chat_message env f).invoked = none) := by
  refine ⟨fun hb hs ht => ?_, fun hb hs ht => ?_, fun hb => ?_⟩
  · unfold chat_message
    rw [hm]
    simp only [Option.getD_some, hb, hs, ht, hpre]
    have e1 : pySplit ' ' (pyLower sSeedBang) = ["!seed".toList, sDaybreak] := by decide
    rw [e1]
    have e2 : pyStartsWith (pyLower sBang) ("!seed".toList) = true := by decide
    have e3 : sEx ++ ("!seed".toList).drop sBang.length = sExSeed := by decide
    simp only [Bool.or_self, Bool.false_eq_true, if_false, e2, if_true, e3, hreg, ite_true]
    cases env.cmdOutcome sExSeed [sDaybreak] m <;> rfl
  · unfold chat_message
    rw [hm]
    simp only [Option.getD_some, hb, hs, ht, hpre]
    have e1 : pySplit ' ' (pyLower sSeedPlain) = ["seed".toList, sDaybreak] := by decide
    rw [e1]
    have e2 : pyStartsWith (pyLower sBang) ("seed".toList) = false := by decide
    simp only [Bool.or_self, Bool.false_eq_true, if_false, e2]
  · unfold chat_message
    rw [hm]
    simp only [Option.getD_some, hb, Bool.true_or, if_true]


/-- Witness for C1 at concrete frames. -/
theorem C1_witness :
    (chat_message envSeed fSeedBangF).invoked = some ⟨sExSeed, [sDaybreak], mSeed⟩ ∧
    (chat_message envSeed fPlainF).invoked = none ∧
    (chat_message envSeed fBotF).invoked = none :=
  ⟨(C1_command_routing envSeed fSeedBangF mSeed rfl (by decide) rfl).1 rfl rfl rfl,
   (C1_command_routing envSeed fPlainF mPlain rfl (by decide) rfl).2.1 rfl rfl rfl,
   (C1_command_routing envSeed fBotF mBot rfl (by decide) rfl).2.2 rfl⟩


/-- C2: a command handler that raises has its exception caught and
logged inside that chat-message invocation — `consume` still returns
normally with the caught error recorded — and the receive loop
continues with the rest of the stream exactly as it would have. -/
theorem C2_command_error_isolated (env : CmdEnv) (s : HState) (f : Frame)
    (rest : List Frame) (d : RaceData) (e : PyStr)
    (hd : s.data = some d)
    (ht : f.ftype = some sChatMessageT)
    (hc : (chat_message env f).caught = some e)
    (hns : should_stop s = Except.ok false) :
    consume env s f = Except.ok ⟨s, (chat_message env f).invoked, some e⟩ ∧
    handleLoop env s (f :: rest) =
      ⟨f :: (handleLoop env s rest).processed,
       (handleLoop env s rest).endRuns,
       e :: (handleLoop env s rest).caught,
       (handleLoop env s rest).exit⟩ := by
  have hcons : consume env s f = Except.ok ⟨s, (chat_message env f).invoked, some e⟩ := by
    unfold consume
    simp only [hd, ht]
    rw [if_neg (by decide : ¬ sChatMessageT = [])]
    rw [if_neg (by decide : ¬ pyReplace '.' '_' sChatMessageT = sRaceDataM)]
    rw [if_pos (by decide : pyReplace '.' '_' sChatMessageT = sChatMessageM)]
    rw [hc]
  refine ⟨hcons, ?_⟩
  simp only [handleLoop]
  rw [hcons]
  simp only [hns]
  rfl


/-- Witness for C2: a raising seed handler at a concrete frame. -/
theorem C2_witness :
    consume envBoom initHState fSeedW =
      Except.ok ⟨initHState, (chat_message envBoom fSeedW).invoked, some ("boom".toList)⟩ ∧
    handleLoop envBoom initHState (fSeedW :: []) =
      ⟨fSeedW :: (handleLoop envBoom initHState []).processed,
       (handleLoop envBoom initHState []).endRuns,
       "boom".toList :: (handleLoop envBoom initHState []).caught,
       (handleLoop envBoom initHState []).exit⟩ :=
  C2_command_error_isolated envBoom initHState fSeedW [] emptyRaceData ("boom".toList)
    (by decide) (by decide) (by decide) (by rfl)


/-- C3: the task table never holds two sessions for one room name: in
every reachable orchestrator state the table keys are duplicate-free; a
discovery pass leaves the entry of an already-managed room untouched
(no second session is assigned, nothing is removed); and a task-finish
event removes exactly the finished task's entry, the only removal. -/
theorem C3_task_table (evs : List BotEvent) :
    (keys (runBot evs).handlers).Nodup ∧
    (∀ fetched name v, alookup name (runBot evs).handlers = some v →
      alookup name (discoveryPass (runBot evs) fetched).handlers = some v) ∧
    (∀ name fname v,
      alookup name (taskFinish (runBot evs) fname).handlers = some v ↔
        (¬ name = fname ∧ alookup name (runBot evs).handlers = some v)) := by
  refine ⟨runBot_handlers_nodup evs, ?_, ?_⟩
  · intro fetched name v h
    exact passFold_alookup_some (buildRaces fetched) (runBot evs) name v h
  · intro name fname v
    exact taskFinish_alookup (runBot evs) fname name v


/-- Witness for C3 at a concrete event history. -/
theorem C3_witness :
    alookup nA (discoveryPass (runBot evsA) [(nA, rdOpen)]).handlers = some 0 ∧
    alookup nA (taskFinish (runBot evsA) nB).handlers = some 0 :=
  ⟨(C3_task_table evsA).2.1 [(nA, rdOpen)] nA 0 (by decide),
   ((C3_task_table evsA).2.2 nA nB 0).mpr ⟨by decide, by decide⟩⟩


/-- C4: within one discovery pass, a fetched room that is not already
managed gets a session exactly when its status value is outside the
terminal set: a terminal room ends the pass with no task-table entry
and no new creation event, a non-terminal room ends it with a
registered entry and a matching creation event. -/
theorem C4_discovery_eligibility (b : BotState) (fetched : List (PyStr × RaceData))
    (name : PyStr) (rd : RaceData)
    (hum : alookup name b.handlers = none)
    (hf : alookup name (buildRaces fetched) = some rd) :
    (should_handle rd = false →
      alookup name (discoveryPass b fetched).handlers = none ∧
      ∀ ss sid, OrcEvent.created name ss sid ∈ (discoveryPass b fetched).log →
        OrcEvent.created name ss sid ∈ b.log) ∧
    (should_handle rd = true →
      ∃ ss sid, alookup name (discoveryPass b fetched).handlers = some ss ∧
        OrcEvent.created name ss sid ∈ (discoveryPass b fetched).log) :=
  passFold_eligibility (buildRaces fetched) b name rd (buildRaces_nodup fetched) hum hf


/-- Witness for C4: one pass over a fresh orchestrator with one active
and one finished room. -/
theorem C4_witness :
    (alookup nB (discoveryPass initBot raceListW).handlers = none ∧
      ∀ ss sid, OrcEvent.created nB ss sid ∈ (discoveryPass initBot raceListW).log →
        OrcEvent.created nB ss sid ∈ initBot.log) ∧
    (∃ ss sid, alookup nA (discoveryPass initBot raceListW).handlers = some ss ∧
      OrcEvent.created nA ss sid ∈ (discoveryPass initBot raceListW).log) :=
  ⟨(C4_discovery_eligibility initBot raceListW nB rdClosed (by decide) (by decide)).1
      (by decide),
   (C4_discovery_eligibility initBot raceListW nA rdOpen (by decide) (by decide)).2
      (by decide)⟩


/-- C5: the persistent per-room state lifecycle: a first-time eligible
room gets a freshly allocated (empty) state entry whose identity is
handed to the created session; as long as no later step logs a deletion
of that room's state, the very same entry survives any sequence of
orchestrator events and every further session created for the room is
handed the same identity; a finishing task never touches the state
table; and an existing entry disappears in a pass step only for an
unmanaged room whose status became terminal. -/
theorem C5_state_lifecycle (name : PyStr) :
    (∀ b rd, alookup name b.handlers = none → should_handle rd = true →
      alookup name b.state = none →
      alookup name (passStep b name rd).state = some b.nextSid ∧
      OrcEvent.created name b.nextSession b.nextSid ∈ (passStep b name rd).log) ∧
    (∀ evs b sid, alookup name b.state = some sid →
      ((foldBot b evs).log).count (OrcEvent.stateDeleted name) =
        (b.log).count (OrcEvent.stateDeleted name) →
      alookup name (foldBot b evs).state = some sid ∧
      (∀ ss sid2, OrcEvent.created name ss sid2 ∈ (foldBot b evs).log →
        OrcEvent.created name ss sid2 ∈ b.log ∨ sid2 = sid)) ∧
    (∀ b n, (taskFinish b n).state = b.state) ∧
    (∀ b k rd sid, alookup name b.state = some sid →
      alookup name (passStep b k rd).state = none →
      name = k ∧ alookup name b.handlers = none ∧ should_handle rd = false) := by
  refine ⟨?_, ?_, ?_, ?_⟩
  · intro b rd hum hel hst
    exact passStep_first_creation b name rd hum hel hst
  · intro evs b sid hs hcnt
    exact foldBot_state_pres evs b name sid hs hcnt
  · intro b n
    exact taskFinish_state b n
  · intro b k rd sid hs hnone
    exact passStep_state_delete_inv b k rd name sid hs hnone


/-- Witness for C5 at concrete orchestrator states. -/
theorem C5_witness :
    (alookup nA (passStep initBot nA rdOpen).state = some initBot.nextSid ∧
      OrcEvent.created nA initBot.nextSession initBot.nextSid ∈
        (passStep initBot nA rdOpen).log) ∧
    (alookup nA (foldBot bW [BotEvent.finish nA]).state = some 5 ∧
      (∀ ss sid2, OrcEvent.created nA ss sid2 ∈ (foldBot bW [BotEvent.finish nA]).log →
        OrcEvent.created nA ss sid2 ∈ bW.log ∨ sid2 = 5)) ∧
    (taskFinish bW nA).state = bW.state ∧
    (nA = nA ∧ alookup nA bW2.handlers = none ∧ should_handle rdClosed = false) :=
  ⟨(C5_state_lifecycle nA).1 initBot rdOpen (by decide) (by decide) (by decide),
   (C5_state_lifecycle nA).2.1 [BotEvent.finish nA] bW 5 (by decide) (by decide),
   (C5_state_lifecycle nA).2.2.1 bW nA,
   (C5_state_lifecycle nA).2.2.2 bW2 nA rdClosed 5 (by decide) (by decide)⟩


/-- C6: the reauthorize loop sleeps the token validity minus the
600-unit margin when the validity exceeds 600, and the full validity
otherwise. -/
theorem C6_reauthorize_delay (e : Int) :
    (600 < e → reauthorize_delay e = e - 600) ∧
    (e ≤ 600 → reauthorize_delay e = e) := by
  refine ⟨fun h => ?_, fun h => ?_⟩
  · unfold reauthorize_delay
    rw [if_pos h]
  · unfold reauthorize_delay
    rw [if_neg (by omega)]


/-- Witness for C6 at the spec's example inputs 36000 and 300. -/
theorem C6_witness :
    reauthorize_delay 36000 = 35400 ∧ reauthorize_delay 300 = 300 :=
  ⟨(C6_reauthorize_delay 36000).1 (by decide), (C6_reauthorize_delay 300).2 (by decide)⟩


/-- C7: when the receive loop, having consumed a prefix of the stream
without stopping or erroring, processes a full-state-sync (`race.data`)
frame whose payload's status value is in the terminal set, the `end`
hook runs exactly once, the loop exits as stopped, and none of the
remaining frames is processed. -/
theorem C7_terminal_sync_stops (env : CmdEnv) (s : HState) (pre post : List Frame)
    (f : Frame) (rd : RaceData) (v : PyStr) (d0 : RaceData)
    (hd : s.data = some d0)
    (hpre : (handleLoop env s pre).exit = ExitKind.streamEnded)
    (ht : f.ftype = some sRaceDataT)
    (hr : f.race = some rd)
    (hv : statusValue rd = some v)
    (hterm : v ∈ stop_at) :
    handleLoop env s (pre ++ f :: post) =
      ⟨pre ++ [f], 1, (handleLoop env s pre).caught, ExitKind.stopped⟩ := by
  obtain ⟨d1, hd1⟩ := loopState_data_some env s pre d0 hd hpre
  have hcons : consume env (loopState env s pre) f = Except.ok ⟨⟨some rd⟩, none, none⟩ := by
    unfold consume
    simp only [hd1, ht]
    rw [if_neg (by decide : ¬ sRaceDataT = [])]
    rw [if_pos (by decide : pyReplace '.' '_' sRaceDataT = sRaceDataM)]
    rw [hr]
  have hstop : should_stop ⟨some rd⟩ = Except.ok true := by
    unfold should_stop
    simp only [hv, hterm, decide_eq_true_eq]
    simp [hterm]
  have hstep : handleLoop env (loopState env s pre) (f :: post) =
      ⟨[f], 1, [], ExitKind.stopped⟩ := by
    simp only [handleLoop]
    rw [hcons]
    simp only [hstop]
    rfl
  rw [handleLoop_append env s pre (f :: post) hpre, hstep]
  obtain ⟨h1, _⟩ := handleLoop_streamEnded env s pre hpre
  simp


/-- Witness for C7: a terminal sync frame followed by an unreached
chat frame. -/
theorem C7_witness :
    handleLoop envNull initHState ([] ++ fDone :: [fChat]) =
      ⟨[] ++ [fDone], 1, (handleLoop envNull initHState []).caught, ExitKind.stopped⟩ :=
  C7_terminal_sync_stops envNull initHState [] [fChat] fDone rdDone sCancelled emptyRaceData
    (by decide) (by rfl) (by decide) (by decide) (by decide) (by decide)


/-- C8: a restricted command whose permission predicate rejects the
sender produces exactly one chat reply in the fixed rejection format
addressed to the sender's display name (with the generic fallback when
the name is absent), and the wrapped body contributes nothing; a sender
with no user object (such as a bot) always fails the moderator
predicate. -/
theorem C8_permission_rejection (fn : List PyStr → ChatMsg → List BotAction)
    (args : List PyStr) (m : ChatMsg) :
    (can_moderate m = false →
      moderator_cmd fn args m =
        [BotAction.sendMessage (sRejBefore ++ replyTo m ++ sRejModAfter)]) ∧
    (can_monitor m = false →
      monitor_cmd fn args m =
        [BotAction.sendMessage (sRejBefore ++ replyTo m ++ sRejMonAfter)]) ∧
    (m.user = none → can_moderate m = false) ∧
    (m.user = none → replyTo m = sFriend) := by
  refine ⟨fun h => ?_, fun h => ?_, fun h => ?_, fun h => ?_⟩
  · unfold moderator_cmd restrict_cmd
    rw [h]
    rfl
  · unfold monitor_cmd restrict_cmd
    rw [h]
    rfl
  · unfold can_moderate
    rw [h]
    rfl
  · unfold replyTo
    rw [h]
    rfl


/-- Witness for C8: a bot sender with no user object. -/
theorem C8_witness :
    moderator_cmd (fun _ _ => [BotAction.bodyEffect 7]) [] mBotSender =
      [BotAction.sendMessage (sRejBefore ++ replyTo mBotSender ++ sRejModAfter)] ∧
    monitor_cmd (fun _ _ => [BotAction.bodyEffect 7]) [] mBotSender =
      [BotAction.sendMessage (sRejBefore ++ replyTo mBotSender ++ sRejMonAfter)] :=
  ⟨(C8_permission_rejection (fun _ _ => [BotAction.bodyEffect 7]) [] mBotSender).1
      (by decide),
   (C8_permission_rejection (fun _ _ => [BotAction.bodyEffect 7]) [] mBotSender).2.1
      (by decide)⟩


/-- C9: a frame whose JSON object lacks a `type` key makes the event
dispatcher raise (the handler-name computation dereferences the value
before the truthiness guard), while the logged no-op of a missing
handler occurs only for a frame carrying a non-empty string type whose
derived method name matches no attribute of the session object —
neither a `RaceHandler` member, nor a registered command method, nor
any other attribute it has. -/
theorem C9_missing_type_raises (env : CmdEnv) (s : HState) (f : Frame) (d : RaceData)
    (hd : s.data = some d) :
    (f.ftype = none → consume env s f = Except.error PyErr.attributeError) ∧
    (∀ t, f.ftype = some t → t ≠ [] →
      pyReplace '.' '_' t ∉ raceHandlerAttrs →
      pyReplace '.' '_' t ∉ env.cmdMethods →
      pyReplace '.' '_' t ∉ env.otherAttrs →
      consume env s f = Except.ok ⟨s, none, none⟩) := by
  refine ⟨fun ht => ?_, fun t ht hne hA hB hC => ?_⟩
  · unfold consume
    rw [hd, ht]
  · have hra : ¬ pyReplace '.' '_' t = sRaceDataM := fun hc => hA (by rw [hc]; decide)
    have hcm : ¬ pyReplace '.' '_' t = sChatMessageM := fun hc => hA (by rw [hc]; decide)
    have herr : ¬ pyReplace '.' '_' t = sErrorM := fun hc => hA (by rw [hc]; decide)
    have hmem : ¬ (pyReplace '.' '_' t ∈ raceHandlerAttrs ∨
        pyReplace '.' '_' t ∈ env.cmdMethods ∨
        pyReplace '.' '_' t ∈ env.otherAttrs) := by
      intro hc
      rcases hc with hc | hc | hc
      · exact hA hc
      · exact hB hc
      · exact hC hc
    unfold consume
    simp only [hd, ht]
    rw [if_neg hne, if_neg hra, if_neg hcm, if_neg herr, if_neg hmem]


/-- Witness for C9: a typeless frame raises, a frame whose type matches
no attribute is a no-op. -/
theorem C9_witness :
    consume envSeed initHState fNoType = Except.error PyErr.attributeError ∧
    consume envSeed initHState fOddType = Except.ok ⟨initHState, none, none⟩ :=
  ⟨(C9_missing_type_raises envSeed initHState fNoType emptyRaceData (by decide)).1 rfl,
   (C9_missing_type_raises envSeed initHState fOddType emptyRaceData (by decide)).2
      ("race.start".toList) rfl (by decide) (by decide) (by decide) (by decide)⟩


/-- C10: the chat text is lowercased as a whole before splitting on
spaces — so the split of the lowercased text is the word-wise lowercase
of the split of the original — the argument words a handler receives
are the lowercased forms of the sender's words while the original
message object is passed alongside unchanged, and the prefix match
compares the lowercased prefix against the lowercased first word. -/
theorem C10_lowercased_routing (env : CmdEnv) (f : Frame) (m : ChatMsg) (text : PyStr)
    (hm : f.message = some m) (ht : m.message = some text)
    (hb : m.is_bot = false) (hs : m.is_system = false) :
    pySplit ' ' (pyLower text) = (pySplit ' ' text).map pyLower ∧
    (∀ inv, (chat_message env f).invoked = some inv →
       inv.args = ((pySplit ' ' text).tail).map pyLower ∧ inv.message = m) ∧
    ((chat_message env f).invoked.isSome = true →
       pyStartsWith (pyLower env.cmdPrefixStr) (pyLower (firstWord text)) = true) := by
  refine ⟨pySplit_lower text, ?_, ?_⟩
  · intro inv hinv
    unfold chat_message at hinv
    rw [hm] at hinv
    simp only [Option.getD_some, hb, hs, ht, Bool.or_self, Bool.false_eq_true, if_false] at hinv
    rw [pySplit_lower text] at hinv
    simp only [pySplit, List.map_cons] at hinv
    simp only [pySplit, List.tail_cons]
    split at hinv
    · split at hinv
      · revert hinv
        cases env.cmdOutcome (sEx ++ (pyLower (pySplitAux ' ' text).1).drop env.cmdPrefixStr.length)
            ((pySplitAux ' ' text).2.map pyLower) m <;>
          · intro hinv
            simp only [Option.some.injEq] at hinv
            rw [← hinv]
            exact ⟨rfl, rfl⟩
      · simp at hinv
    · simp at hinv
  · intro hsome
    unfold chat_message at hsome
    rw [hm] at hsome
    simp only [Option.getD_some, hb, hs, ht, Bool.or_self, Bool.false_eq_true, if_false] at hsome
    rw [pySplit_lower text] at hsome
    simp only [pySplit, List.map_cons] at hsome
    simp only [firstWord]
    split at hsome
    · assumption
    · simp at hsome


/-- Witness for C10 at a mixed-case chat text. -/
theorem C10_witness :
    (⟨sExSeed, [sDaybreak], mCase⟩ : CmdInvocation).args =
      ((pySplit ' ' ("!Seed DayBreak".toList)).tail).map pyLower ∧
    (⟨sExSeed, [sDaybreak], mCase⟩ : CmdInvocation).message = mCase :=
  (C10_lowercased_routing envSeed fCase mCase ("!Seed DayBreak".toList)
      rfl rfl rfl rfl).2.1 ⟨sExSeed, [sDaybreak], mCase⟩ (by decide)

end RacetimeBot
